import Mathlib

/-!
Verification of the task-manager page (`src/unnamed/part_000`, a React/Next.js
client component backed by a Supabase service).  The pure logic of the page —
the filter/sort pipeline `filteredTasks`, the CRUD handlers `addTask`,
`deleteTask`, `toggleTask`, and the three-step wizard navigation — is embedded
shallowly below.  Remote calls are modelled by passing the service response
(or the service itself, for `toggleTask`) as an explicit argument; JavaScript
falsiness of optional strings (`undefined` and `""` are both falsy) is made
explicit; `String.prototype.localeCompare` is modelled as code-point
lexicographic comparison returning -1/0/1; `Array.prototype.sort` is modelled
as a stable comparison sort (insertion sort): an element is placed before a
later one exactly when the comparator returns a value that is not positive.
-/

namespace TaskManager

/-- Sort modes of the page: `"newest" | "due" | "priority"` (line 31). -/
inductive SortMode where
  | newest
  | due
  | priority
deriving DecidableEq

/-- Filter modes of the page: `"all" | "completed" | "pending"` (line 30). -/
inductive FilterMode where
  | all
  | completed
  | pending
deriving DecidableEq

/-- The `Task` row type (lines 8-16).  `priority` is declared in TypeScript as
the union `"Low" | "Medium" | "High"`, but rows arrive untyped from the remote
service and the sort code defends against unknown or missing values
(`priorityOrder[a.priority] || 3`), so the embedding keeps it as an optional
arbitrary string. -/
structure Task where
  id : String
  title : String
  due_date : Option String
  note : Option String
  priority : Option String
  completed : Bool
  created_at : Option String
deriving DecidableEq

/-- The wizard form values (lines 18-26). -/
structure FormData where
  title : String
  due_date : Option String
  note : Option String
  priority : Option String
  tags : Option String
  subtasks : Option String
  recurring_interval : Option String
deriving DecidableEq

/-- The object literal inserted by `addTask` (lines 72-78): exactly these five
fields and no others are sent to the service. -/
structure InsertPayload where
  user_id : String
  title : String
  due_date : Option String
  note : Option String
  priority : String
deriving DecidableEq

/-- A Supabase response: a `(data, error)` pair where an error precludes
trusting the data. -/
inductive ServiceResult (α : Type) where
  | ok (value : α)
  | err (message : String)
deriving DecidableEq

/-- The component state touched by the handlers: the local task list, the
wizard step, and the form values held by `react-hook-form`. -/
structure PageState where
  tasks : List Task
  step : Nat
  formValues : FormData
deriving DecidableEq

/-- JavaScript falsiness of an optional string: `undefined` and `""` are
falsy, every other string is truthy. -/
def isFalsyStr (s : Option String) : Bool :=
  match s with
  | none => true
  | some t => t == ""

/-- `String.prototype.trim`: leading and trailing whitespace characters are
removed.  Modelled on the underlying character list so that concrete
instances evaluate inside the kernel. -/
def jsTrim (s : String) : String :=
  ⟨((s.data.dropWhile Char.isWhitespace).reverse.dropWhile Char.isWhitespace).reverse⟩

/-- `x || null` on an optional string (lines 75-76). -/
def orNull (s : Option String) : Option String :=
  match s with
  | none => none
  | some t => if t = "" then none else some t

/-- `data.priority || "Medium"` (line 77). -/
def orMedium (p : Option String) : String :=
  match p with
  | none => "Medium"
  | some t => if t = "" then "Medium" else t

/-- The form after `reset()`: every registered field returns to its empty
default. -/
def emptyForm : FormData :=
  ⟨"", none, none, none, none, none, none⟩

/-- `String.prototype.localeCompare`, modelled as code-point lexicographic
comparison returning -1, 0 or 1. -/
def localeCompare (a b : String) : Int :=
  if a < b then -1 else if b < a then 1 else 0

/-- The string a task's due date compares by (empty when missing). -/
def dueVal (t : Task) : String :=
  t.due_date.getD ""

/-- The `"due"` comparator (lines 124-128): a missing (falsy) due date on the
left compares as 1 regardless of the right-hand task; otherwise a missing one
on the right compares as -1; otherwise `localeCompare` of the two strings. -/
def dueCompare (a b : Task) : Int :=
  if isFalsyStr a.due_date then 1
  else if isFalsyStr b.due_date then -1
  else localeCompare (dueVal a) (dueVal b)

/-- A value a property read on the `priorityOrder` object literal can
produce: one of its own numeric ranks, or a truthy non-numeric value (a
function, or for `__proto__` an object) inherited from `Object.prototype`.
An absent property reads as `undefined`, which the call site's `|| 3`
replaces, so it needs no constructor here. -/
inductive JsValue where
  | num (n : Int)
  | truthyNonNum
deriving DecidableEq

/-- The property names an object literal inherits from `Object.prototype`:
every one reads as a truthy function, except `__proto__`, whose accessor
yields the (truthy) prototype object. -/
def objectPrototypeNames : List String :=
  ["constructor", "hasOwnProperty", "isPrototypeOf", "propertyIsEnumerable",
   "toLocaleString", "toString", "valueOf", "__defineGetter__", "__defineSetter__",
   "__lookupGetter__", "__lookupSetter__", "__proto__"]

/-- `priorityOrder[p] || 3` (lines 130-131).  The object literal owns
`High: 1`, `Medium: 2`, `Low: 3`.  Any other lookup consults the prototype
chain: a name of an inherited `Object.prototype` member yields a truthy
function or object, so the `|| 3` default does not apply; every remaining
name — including the key "undefined" produced by a missing priority — reads
as `undefined` and falls through to 3. -/
def priorityOrder (p : Option String) : JsValue :=
  match p with
  | none => JsValue.num 3
  | some s =>
    if s = "High" then JsValue.num 1
    else if s = "Medium" then JsValue.num 2
    else if s = "Low" then JsValue.num 3
    else if objectPrototypeNames.contains s then JsValue.truthyNonNum
    else JsValue.num 3

/-- The `"priority"` comparator (line 131): the difference of the two
looked-up values when both are numbers; when either operand is an inherited
non-numeric value the subtraction yields NaN, which `Array.prototype.sort`
treats as +0, so the comparator is modelled as returning 0 there. -/
def priorityCompare (a b : Task) : Int :=
  match priorityOrder a.priority, priorityOrder b.priority with
  | JsValue.num m, JsValue.num n => m - n
  | _, _ => 0

/-- The numeric rank of a clean lookup; lookups that hit an inherited
property are mapped to 0, a value no numeric lookup takes. -/
def rankOf (p : Option String) : Int :=
  match priorityOrder p with
  | JsValue.num n => n
  | JsValue.truthyNonNum => 0

/-- The `"newest"` comparator (line 133): descending on the creation
timestamp, a missing timestamp comparing as the empty string. -/
def newestCompare (a b : Task) : Int :=
  localeCompare (b.created_at.getD "") (a.created_at.getD "")

/-- Stable insertion of one element by a JavaScript-style comparator: the new
element goes before the first element the comparator does not place it
strictly after. -/
def insertCmp {α : Type} (cmp : α → α → Int) (x : α) : List α → List α
  | [] => [x]
  | y :: ys => if cmp x y ≤ 0 then x :: y :: ys else y :: insertCmp cmp x ys

/-- `Array.prototype.sort(cmp)`, modelled as the stable insertion sort. -/
def sortCmp {α : Type} (cmp : α → α → Int) : List α → List α
  | [] => []
  | x :: xs => insertCmp cmp x (sortCmp cmp xs)

/-- The sorting stage of `filteredTasks` (lines 123-134). -/
def sortTasks (m : SortMode) (l : List Task) : List Task :=
  match m with
  | SortMode.newest => sortCmp newestCompare l
  | SortMode.due => sortCmp dueCompare l
  | SortMode.priority => sortCmp priorityCompare l

/-- The filtering stage of `filteredTasks` (lines 120-121). -/
def filterTasks (f : FilterMode) (l : List Task) : List Task :=
  match f with
  | FilterMode.all => l
  | FilterMode.completed => l.filter (fun t => t.completed)
  | FilterMode.pending => l.filter (fun t => !t.completed)

/-- The derived view `filteredTasks` (lines 117-137): filter, then sort.  The
defensive `completed: !!t.completed` coercion is the identity on the embedded
boolean field. -/
def filteredTasks (f : FilterMode) (m : SortMode) (l : List Task) : List Task :=
  sortTasks m (filterTasks f l)

/-- The identifiers of a task list, in order. -/
def taskIds (l : List Task) : List String :=
  l.map (fun t => t.id)

/-- The insert payload built by `addTask` (lines 72-78). -/
def mkInsertPayload (uid : String) (d : FormData) : InsertPayload :=
  ⟨uid, d.title, orNull d.due_date, orNull d.note, orMedium d.priority⟩

/-- `addTask` (lines 64-90).  Arguments: the session's user id (none when no
session), the service's response to the insert, the current state and the
submitted form values.  Returns the new state together with the payload of the
insert request, when one was issued: a blank (whitespace-only) title or a
missing session aborts before any request; a service error leaves the state
unchanged; on success the returned row is prepended, the form reset and the
step returned to 1.  Errors are only logged, never thrown: every branch
returns normally. -/
def addTask (uid : Option String) (resp : ServiceResult Task) (st : PageState)
    (d : FormData) : PageState × Option InsertPayload :=
  if jsTrim d.title = "" then (st, none)
  else
    match uid with
    | none => (st, none)
    | some u =>
      match resp with
      | ServiceResult.err _ => (st, some (mkInsertPayload u d))
      | ServiceResult.ok newTask =>
        ({ tasks := newTask :: st.tasks, step := 1, formValues := emptyForm },
          some (mkInsertPayload u d))

/-- `deleteTask` (lines 92-99): on a service error the state is unchanged; on
success every task whose id equals the argument is removed from the local
list. -/
def deleteTask (resp : ServiceResult Unit) (st : PageState) (id : String) : PageState :=
  match resp with
  | ServiceResult.err _ => st
  | ServiceResult.ok _ => { st with tasks := st.tasks.filter (fun t => t.id != id) }

/-- `toggleTask` (lines 101-115): the service is asked to update the row with
the task's id to the flipped completion flag and return the updated row; on
error the state is unchanged; on success every local task with the returned
row's id is replaced by the returned row. -/
def toggleTask (service : String → Bool → ServiceResult Task) (st : PageState)
    (task : Task) : PageState :=
  match service task.id (!task.completed) with
  | ServiceResult.err _ => st
  | ServiceResult.ok updatedTask =>
    { st with tasks := st.tasks.map (fun t => if t.id = updatedTask.id then updatedTask else t) }

/-- The wizard's two navigation buttons (lines 230-234). -/
inductive NavEvent where
  | back
  | next
deriving DecidableEq

/-- One navigation click: the Back button is rendered only when `step > 1`
and sets `step - 1`; the Next button only when `step < 3` and sets
`step + 1`; neither touches the form values or the task list. -/
def navigate (st : PageState) (e : NavEvent) : PageState :=
  match e with
  | NavEvent.back => if 1 < st.step then { st with step := st.step - 1 } else st
  | NavEvent.next => if st.step < 3 then { st with step := st.step + 1 } else st

/-- A sequence of navigation clicks. -/
def runNav (st : PageState) (evs : List NavEvent) : PageState :=
  evs.foldl navigate st

/-! General facts about the comparison sort. -/

theorem insertCmp_decomp {α : Type} (cmp : α → α → Int) (x : α) (l : List α) :
    ∃ l₁ l₂, insertCmp cmp x l = l₁ ++ x :: l₂ ∧ l = l₁ ++ l₂ ∧ ∀ y ∈ l₁, 0 < cmp x y := by
  induction l with
  | nil => exact ⟨[], [], rfl, rfl, by simp⟩
  | cons y ys ih =>
    by_cases h : cmp x y ≤ 0
    · exact ⟨[], y :: ys, by simp [insertCmp, h], rfl, by simp⟩
    · obtain ⟨l₁, l₂, h1, h2, h3⟩ := ih
      refine ⟨y :: l₁, l₂, ?_, ?_, ?_⟩
      · simp [insertCmp, h, h1]
      · simp [h2]
      · intro z hz
        rcases List.mem_cons.mp hz with hz | hz
        · subst hz; omega
        · exact h3 z hz

theorem insertCmp_perm {α : Type} (cmp : α → α → Int) (x : α) (l : List α) :
    (insertCmp cmp x l).Perm (x :: l) := by
  obtain ⟨l₁, l₂, h1, h2, _⟩ := insertCmp_decomp cmp x l
  rw [h1, h2]
  exact List.perm_middle

theorem sortCmp_perm {α : Type} (cmp : α → α → Int) (l : List α) :
    (sortCmp cmp l).Perm l := by
  induction l with
  | nil => exact List.Perm.refl []
  | cons x xs ih => exact (insertCmp_perm cmp x (sortCmp cmp xs)).trans (ih.cons x)

theorem mem_insertCmp {α : Type} (cmp : α → α → Int) (x z : α) (l : List α) :
    z ∈ insertCmp cmp x l ↔ z = x ∨ z ∈ l := by
  rw [(insertCmp_perm cmp x l).mem_iff, List.mem_cons]

theorem insertCmp_pairwise {α : Type} (cmp : α → α → Int) (R : α → α → Prop)
    (hle : ∀ a b, cmp a b ≤ 0 → R a b) (hgt : ∀ a b, 0 < cmp a b → R b a)
    (htrans : ∀ a b c, R a b → R b c → R a c) (x : α) (l : List α)
    (hl : l.Pairwise R) : (insertCmp cmp x l).Pairwise R := by
  induction l with
  | nil => simp [insertCmp]
  | cons y ys ih =>
    obtain ⟨hy, hys⟩ := List.pairwise_cons.mp hl
    by_cases h : cmp x y ≤ 0
    · simp only [insertCmp, if_pos h]
      refine List.pairwise_cons.mpr ⟨?_, hl⟩
      intro z hz
      rcases List.mem_cons.mp hz with hz | hz
      · rw [hz]; exact hle x y h
      · exact htrans x y z (hle x y h) (hy z hz)
    · simp only [insertCmp, if_neg h]
      refine List.pairwise_cons.mpr ⟨?_, ih hys⟩
      intro z hz
      rcases (mem_insertCmp cmp x z ys).mp hz with hz | hz
      · rw [hz]; exact hgt x y (by omega)
      · exact hy z hz

theorem sortCmp_pairwise {α : Type} (cmp : α → α → Int) (R : α → α → Prop)
    (hle : ∀ a b, cmp a b ≤ 0 → R a b) (hgt : ∀ a b, 0 < cmp a b → R b a)
    (htrans : ∀ a b c, R a b → R b c → R a c) (l : List α) :
    (sortCmp cmp l).Pairwise R := by
  induction l with
  | nil => simp [sortCmp]
  | cons x xs ih => exact insertCmp_pairwise cmp R hle hgt htrans x (sortCmp cmp xs) ih

theorem insertCmp_pairwise_mem {α : Type} (cmp : α → α → Int) (R : α → α → Prop)
    (P : α → Prop)
    (hle : ∀ a b, P a → P b → cmp a b ≤ 0 → R a b)
    (hgt : ∀ a b, P a → P b → 0 < cmp a b → R b a)
    (htrans : ∀ a b c, R a b → R b c → R a c) (x : α) (l : List α)
    (hPx : P x) (hPl : ∀ y ∈ l, P y) (hl : l.Pairwise R) :
    (insertCmp cmp x l).Pairwise R := by
  induction l with
  | nil => simp [insertCmp]
  | cons y ys ih =>
    obtain ⟨hy, hys⟩ := List.pairwise_cons.mp hl
    have hPy : P y := hPl y (List.mem_cons_self y ys)
    have hPys : ∀ z ∈ ys, P z := fun z hz => hPl z (List.mem_cons_of_mem y hz)
    by_cases h : cmp x y ≤ 0
    · simp only [insertCmp, if_pos h]
      refine List.pairwise_cons.mpr ⟨?_, hl⟩
      intro z hz
      rcases List.mem_cons.mp hz with hz | hz
      · rw [hz]; exact hle x y hPx hPy h
      · exact htrans x y z (hle x y hPx hPy h) (hy z hz)
    · simp only [insertCmp, if_neg h]
      refine List.pairwise_cons.mpr ⟨?_, ih hPys hys⟩
      intro z hz
      rcases (mem_insertCmp cmp x z ys).mp hz with hz | hz
      · rw [hz]; exact hgt x y hPx hPy (by omega)
      · exact hy z hz

theorem sortCmp_pairwise_mem {α : Type} (cmp : α → α → Int) (R : α → α → Prop)
    (P : α → Prop)
    (hle : ∀ a b, P a → P b → cmp a b ≤ 0 → R a b)
    (hgt : ∀ a b, P a → P b → 0 < cmp a b → R b a)
    (htrans : ∀ a b c, R a b → R b c → R a c) (l : List α)
    (hPl : ∀ y ∈ l, P y) : (sortCmp cmp l).Pairwise R := by
  induction l with
  | nil => simp [sortCmp]
  | cons x xs ih =>
    have hPx : P x := hPl x (List.mem_cons_self x xs)
    have hPxs : ∀ y ∈ xs, P y := fun y hy => hPl y (List.mem_cons_of_mem x hy)
    exact insertCmp_pairwise_mem cmp R P hle hgt htrans x (sortCmp cmp xs) hPx
      (fun y hy => hPxs y ((sortCmp_perm cmp xs).mem_iff.mp hy)) (ih hPxs)

theorem insertCmp_filter {α : Type} (cmp : α → α → Int) (p : α → Bool) (x : α)
    (hx : ∀ y, p x = true → p y = true → cmp x y ≤ 0) (l : List α) :
    (insertCmp cmp x l).filter p = ((x :: l).filter p) := by
  induction l with
  | nil => rfl
  | cons y ys ih =>
    by_cases h : cmp x y ≤ 0
    · simp only [insertCmp, if_pos h]
    · simp only [insertCmp, if_neg h]
      by_cases hpx : p x = true
      · have hpy : p y = false := by
          cases hpy2 : p y
          · rfl
          · exact absurd (hx y hpx hpy2) h
        simp [List.filter_cons, hpx, hpy, ih]
      · have hpx2 : p x = false := by
          cases hpx2 : p x
          · rfl
          · exact absurd hpx2 hpx
        simp [List.filter_cons, hpx2, ih]

theorem sortCmp_filter {α : Type} (cmp : α → α → Int) (p : α → Bool)
    (hp : ∀ a b, p a = true → p b = true → cmp a b ≤ 0) (l : List α) :
    (sortCmp cmp l).filter p = l.filter p := by
  induction l with
  | nil => rfl
  | cons x xs ih =>
    have h1 := insertCmp_filter cmp p x (hp x) (sortCmp cmp xs)
    simp only [sortCmp, h1, List.filter_cons]
    rw [ih]

/-- Every sort mode produces a permutation of its input. -/
theorem sortTasks_perm (m : SortMode) (l : List Task) : (sortTasks m l).Perm l := by
  cases m
  · exact sortCmp_perm newestCompare l
  · exact sortCmp_perm dueCompare l
  · exact sortCmp_perm priorityCompare l

/-! The ordering established by the "due" comparator. -/

theorem localeCompare_le {a b : String} (h : localeCompare a b ≤ 0) : a ≤ b := by
  unfold localeCompare at h
  split_ifs at h with h1 h2
  · exact le_of_lt h1
  · omega
  · exact le_of_not_lt h2

theorem localeCompare_pos {a b : String} (h : 0 < localeCompare a b) : b ≤ a := by
  unfold localeCompare at h
  split_ifs at h with h1 h2
  · omega
  · exact le_of_lt h2
  · omega

/-- The order the "due" comparator aims at: any task is at most a task whose
due date is missing, and among tasks with due dates the due strings must be
ascending. -/
def dueLe (a b : Task) : Prop :=
  isFalsyStr b.due_date = true ∨ (isFalsyStr a.due_date = false ∧ dueVal a ≤ dueVal b)

theorem dueCompare_imp_le (a b : Task) (h : dueCompare a b ≤ 0) : dueLe a b := by
  unfold dueCompare at h
  cases hA : isFalsyStr a.due_date with
  | true => rw [hA] at h; simp at h
  | false =>
    rw [hA] at h
    cases hB : isFalsyStr b.due_date with
    | true => exact Or.inl hB
    | false =>
      rw [hB] at h
      simp only [Bool.false_eq_true, if_false] at h
      exact Or.inr ⟨hA, localeCompare_le h⟩

theorem dueCompare_pos_imp (a b : Task) (h : 0 < dueCompare a b) : dueLe b a := by
  unfold dueCompare at h
  cases hA : isFalsyStr a.due_date with
  | true => exact Or.inl hA
  | false =>
    rw [hA] at h
    cases hB : isFalsyStr b.due_date with
    | true => rw [hB] at h; simp at h
    | false =>
      rw [hB] at h
      simp only [Bool.false_eq_true, if_false] at h
      exact Or.inr ⟨hB, localeCompare_pos h⟩

theorem dueLe_trans (a b c : Task) (h1 : dueLe a b) (h2 : dueLe b c) : dueLe a c := by
  rcases h1 with hB | ⟨hA, hab⟩
  · rcases h2 with hC | ⟨hB2, _⟩
    · exact Or.inl hC
    · rw [hB] at hB2; exact absurd hB2 (by decide)
  · rcases h2 with hC | ⟨_, hbc⟩
    · exact Or.inl hC
    · exact Or.inr ⟨hA, le_trans hab hbc⟩

/-- Claim C1 (amended): sorting with mode "due" yields a permutation of the
task list in which no task lacking a due date (in the JavaScript falsy sense:
`undefined` or the empty string) ever precedes a task that has one, and tasks
that have due dates appear in ascending lexical order of their due-date
strings.  The claim's further clause — that two tasks both lacking a due date
keep their relative input order — fails: the comparator answers 1 for every
pair of absent due dates, whichever way it is asked, so a stable comparison
sort swaps such a pair (see `sortTasks_due_absent_pair_swapped`). -/
theorem sortTasks_due_ordered (l : List Task) :
    (sortTasks SortMode.due l).Perm l ∧
    (sortTasks SortMode.due l).Pairwise
      (fun a b => isFalsyStr a.due_date = true → isFalsyStr b.due_date = true) ∧
    (sortTasks SortMode.due l).Pairwise
      (fun a b => isFalsyStr a.due_date = false → isFalsyStr b.due_date = false →
        dueVal a ≤ dueVal b) := by
  have hp : (sortTasks SortMode.due l).Pairwise dueLe :=
    sortCmp_pairwise dueCompare dueLe dueCompare_imp_le dueCompare_pos_imp dueLe_trans l
  refine ⟨sortTasks_perm SortMode.due l, ?_, ?_⟩
  · refine hp.imp ?_
    intro a b hab hA
    rcases hab with hB | ⟨hA2, _⟩
    · exact hB
    · rw [hA] at hA2; exact absurd hA2 (by decide)
  · refine hp.imp ?_
    intro a b hab hA hB
    rcases hab with hB2 | ⟨_, hle2⟩
    · rw [hB] at hB2; exact absurd hB2 (by decide)
    · exact hle2

/-- A task without a due date. -/
def noDueA : Task := ⟨"a", "A", none, none, some "Medium", false, none⟩

/-- A second, distinct task without a due date. -/
def noDueB : Task := ⟨"b", "B", none, none, some "Medium", false, none⟩

/-- Claim C1, counterexample to the clause that two tasks both lacking a due
date keep their relative input order under the "due" sort: the comparator
returns 1 on such a pair in either orientation, so the sort swaps the two
tasks. -/
theorem sortTasks_due_absent_pair_swapped :
    noDueA.due_date = none ∧ noDueB.due_date = none ∧ noDueA ≠ noDueB ∧
    sortTasks SortMode.due [noDueA, noDueB] = [noDueB, noDueA] := by decide

theorem priorityCompare_num (a b : Task) (m n : Int)
    (hA : priorityOrder a.priority = JsValue.num m)
    (hB : priorityOrder b.priority = JsValue.num n) :
    priorityCompare a b = m - n := by
  unfold priorityCompare
  rw [hA, hB]

theorem priorityCompare_truthy_left (a b : Task)
    (hA : priorityOrder a.priority = JsValue.truthyNonNum) :
    priorityCompare a b = 0 := by
  unfold priorityCompare
  rw [hA]

theorem priorityCompare_truthy_right (a b : Task)
    (hB : priorityOrder b.priority = JsValue.truthyNonNum) :
    priorityCompare a b = 0 := by
  unfold priorityCompare
  rw [hB]
  cases priorityOrder a.priority <;> rfl

theorem rankOf_num (p : Option String) (n : Int) (h : priorityOrder p = JsValue.num n) :
    rankOf p = n := by
  unfold rankOf
  rw [h]

theorem priorityOrder_num_range (p : Option String) (n : Int)
    (h : priorityOrder p = JsValue.num n) : 1 ≤ n ∧ n ≤ 3 := by
  cases p with
  | none =>
    have h2 : JsValue.num 3 = JsValue.num n := h
    simp only [JsValue.num.injEq] at h2
    omega
  | some s =>
    have h2 : (if s = "High" then JsValue.num 1
      else if s = "Medium" then JsValue.num 2
      else if s = "Low" then JsValue.num 3
      else if objectPrototypeNames.contains s then JsValue.truthyNonNum
      else JsValue.num 3) = JsValue.num n := h
    split_ifs at h2 <;> simp at h2 <;> omega

/-- A task whose priority string names an `Object.prototype` member. -/
def protoTask : Task := ⟨"p", "P", none, none, some "toString", false, none⟩

/-- A High-priority task, used against `protoTask`. -/
def highTask : Task := ⟨"h", "H", none, none, some "High", false, none⟩

/-- Claim C2, counterexample: the priority "toString" — outside
{Low, Medium, High}, so claimed to rank 3 behind every High task — reads an
inherited truthy function off the lookup object, the comparator's subtraction
yields NaN (treated as +0), and the stable sort leaves the task in front of a
High task. -/
theorem sortTasks_priority_inherited_tie :
    protoTask.priority = some "toString" ∧ highTask.priority = some "High" ∧
    priorityOrder (some "toString") = JsValue.truthyNonNum ∧
    priorityCompare protoTask highTask = 0 ∧
    sortTasks SortMode.priority [protoTask, highTask] = [protoTask, highTask] := by
  decide

/-- Claim C2 (amended): over every task list in which no task's priority
names an inherited `Object.prototype` property — so every lookup
`priorityOrder[p] || 3` yields a number — sorting with mode "priority" is
total and stable: the result is a permutation of the input, consecutive
ranks are ascending (every High, rank 1, task orders before every Medium,
rank 2, task and every Medium before every Low, rank 3, task), other
unrecognized or missing priorities rank 3 exactly like Low, and the tasks of
any one rank keep their relative input order (stability). -/
theorem sortTasks_priority_spec (l : List Task)
    (hclean : ∀ t ∈ l, priorityOrder t.priority ≠ JsValue.truthyNonNum) :
    (sortTasks SortMode.priority l).Perm l ∧
    (sortTasks SortMode.priority l).Pairwise
      (fun a b => rankOf a.priority ≤ rankOf b.priority) ∧
    (∀ r : Int, (sortTasks SortMode.priority l).filter (fun t => rankOf t.priority == r)
      = l.filter (fun t => rankOf t.priority == r)) ∧
    priorityOrder (some "High") = JsValue.num 1 ∧
    priorityOrder (some "Medium") = JsValue.num 2 ∧
    priorityOrder (some "Low") = JsValue.num 3 ∧
    priorityOrder none = JsValue.num 3 ∧
    (∀ s : String, s ≠ "High" → s ≠ "Medium" →
      objectPrototypeNames.contains s = false → priorityOrder (some s) = JsValue.num 3) := by
  refine ⟨sortTasks_perm SortMode.priority l, ?_, ?_, by decide, by decide, by decide, rfl, ?_⟩
  · refine sortCmp_pairwise_mem priorityCompare
      (fun a b => rankOf a.priority ≤ rankOf b.priority)
      (fun t => priorityOrder t.priority ≠ JsValue.truthyNonNum) ?_ ?_
      (fun a b c h1 h2 => le_trans h1 h2) l hclean
    · intro a b hPa hPb h
      cases hA : priorityOrder a.priority with
      | truthyNonNum => exact absurd hA hPa
      | num m =>
        cases hB : priorityOrder b.priority with
        | truthyNonNum => exact absurd hB hPb
        | num n =>
          rw [priorityCompare_num a b m n hA hB] at h
          rw [rankOf_num a.priority m hA, rankOf_num b.priority n hB]
          omega
    · intro a b hPa hPb h
      cases hA : priorityOrder a.priority with
      | truthyNonNum => exact absurd hA hPa
      | num m =>
        cases hB : priorityOrder b.priority with
        | truthyNonNum => exact absurd hB hPb
        | num n =>
          rw [priorityCompare_num a b m n hA hB] at h
          rw [rankOf_num a.priority m hA, rankOf_num b.priority n hB]
          omega
  · intro r
    refine sortCmp_filter priorityCompare _ ?_ l
    intro a b ha hb
    have ha2 : rankOf a.priority = r := by simpa using ha
    have hb2 : rankOf b.priority = r := by simpa using hb
    cases hA : priorityOrder a.priority with
    | truthyNonNum => exact le_of_eq (priorityCompare_truthy_left a b hA)
    | num m =>
      cases hB : priorityOrder b.priority with
      | truthyNonNum => exact le_of_eq (priorityCompare_truthy_right a b hB)
      | num n =>
        rw [priorityCompare_num a b m n hA hB]
        rw [rankOf_num a.priority m hA] at ha2
        rw [rankOf_num b.priority n hB] at hb2
        omega
  · intro s h1 h2 h3
    show (if s = "High" then JsValue.num 1 else if s = "Medium" then JsValue.num 2
      else if s = "Low" then JsValue.num 3
      else if objectPrototypeNames.contains s then JsValue.truthyNonNum
      else JsValue.num 3) = JsValue.num 3
    rw [if_neg h1, if_neg h2, h3]
    split_ifs <;> first | rfl | contradiction

/-- Claim C2, witness: the amended theorem applied to a concrete clean list
holding a High task and two Medium tasks. -/
theorem sortTasks_priority_spec_witness :
    (sortTasks SortMode.priority [noDueA, highTask, noDueB]).Perm [noDueA, highTask, noDueB] :=
  (sortTasks_priority_spec [noDueA, highTask, noDueB] (by decide)).1

theorem mem_taskIds_iff (l : List Task) (i : String) :
    i ∈ taskIds l ↔ ∃ t, t ∈ l ∧ t.id = i := by
  unfold taskIds
  exact List.mem_map

theorem filteredTasks_ids_mem (f : FilterMode) (m : SortMode) (l : List Task) (i : String) :
    i ∈ taskIds (filteredTasks f m l) ↔ ∃ t, t ∈ filterTasks f l ∧ t.id = i := by
  unfold filteredTasks
  rw [mem_taskIds_iff]
  constructor
  · rintro ⟨t, htm, hti⟩
    exact ⟨t, (sortTasks_perm m (filterTasks f l)).mem_iff.mp htm, hti⟩
  · rintro ⟨t, htm, hti⟩
    exact ⟨t, (sortTasks_perm m (filterTasks f l)).mem_iff.mpr htm, hti⟩

/-- A completed task whose identifier collides with `dupPending`. -/
def dupCompleted : Task := ⟨"x", "A", none, none, some "Low", true, none⟩

/-- A pending task whose identifier collides with `dupCompleted`. -/
def dupPending : Task := ⟨"x", "B", none, none, some "Low", false, none⟩

/-- Claim C3, counterexample: over a task list that repeats an identifier with
different completion flags, the identifier sets produced by the "completed"
and "pending" filters are not disjoint — "x" lies in both. -/
theorem filteredTasks_ids_not_disjoint :
    "x" ∈ taskIds (filteredTasks FilterMode.completed SortMode.newest [dupCompleted, dupPending]) ∧
    "x" ∈ taskIds (filteredTasks FilterMode.pending SortMode.newest [dupCompleted, dupPending]) := by
  decide

/-- Claim C3 (amended): over every task list whose identifiers are pairwise
distinct — and under any sort mode — the identifier set produced by filter
mode "completed" is disjoint from the one produced by "pending", and their
union is exactly the identifier set produced by "all".  Without the
distinctness hypothesis disjointness fails, see
`filteredTasks_ids_not_disjoint`; the union equation itself needs no
hypothesis. -/
theorem filteredTasks_partition (m : SortMode) (l : List Task)
    (hd : l.Pairwise (fun a b => a.id ≠ b.id)) :
    (∀ i, i ∈ taskIds (filteredTasks FilterMode.completed m l) →
      i ∉ taskIds (filteredTasks FilterMode.pending m l)) ∧
    (∀ i, i ∈ taskIds (filteredTasks FilterMode.all m l) ↔
      (i ∈ taskIds (filteredTasks FilterMode.completed m l) ∨
       i ∈ taskIds (filteredTasks FilterMode.pending m l))) := by
  constructor
  · intro i hci hpi
    obtain ⟨t1, ht1m, ht1i⟩ := (filteredTasks_ids_mem FilterMode.completed m l i).mp hci
    obtain ⟨t2, ht2m, ht2i⟩ := (filteredTasks_ids_mem FilterMode.pending m l i).mp hpi
    have ht1f : t1 ∈ l.filter (fun t => t.completed) := ht1m
    have ht2f : t2 ∈ l.filter (fun t => !t.completed) := ht2m
    obtain ⟨ht1l, ht1c⟩ := List.mem_filter.mp ht1f
    obtain ⟨ht2l, ht2c⟩ := List.mem_filter.mp ht2f
    have hne : t1 ≠ t2 := by
      intro he
      rw [he] at ht1c
      rw [ht1c] at ht2c
      exact absurd ht2c (by decide)
    have hids : t1.id ≠ t2.id :=
      List.Pairwise.forall (fun _ _ hxy => Ne.symm hxy) hd ht1l ht2l hne
    exact hids (ht1i.trans ht2i.symm)
  · intro i
    rw [filteredTasks_ids_mem, filteredTasks_ids_mem, filteredTasks_ids_mem]
    constructor
    · rintro ⟨t, htl, hti⟩
      have htl2 : t ∈ l := htl
      cases hc : t.completed
      · refine Or.inr ⟨t, ?_, hti⟩
        exact List.mem_filter.mpr ⟨htl2, by simp [hc]⟩
      · refine Or.inl ⟨t, ?_, hti⟩
        exact List.mem_filter.mpr ⟨htl2, by simp [hc]⟩
    · rintro (⟨t, htm, hti⟩ | ⟨t, htm, hti⟩)
      · have htf : t ∈ l.filter (fun t => t.completed) := htm
        exact ⟨t, (List.mem_filter.mp htf).1, hti⟩
      · have htf : t ∈ l.filter (fun t => !t.completed) := htm
        exact ⟨t, (List.mem_filter.mp htf).1, hti⟩

/-- A completed task with identifier "a". -/
def wCompleted : Task := ⟨"a", "A", none, none, some "Low", true, none⟩

/-- A pending task with identifier "b". -/
def wPending : Task := ⟨"b", "B", none, none, some "High", false, none⟩

/-- Claim C3, witness: the partition theorem applied to a concrete two-task
list with distinct identifiers. -/
theorem filteredTasks_partition_witness :
    "a" ∈ taskIds (filteredTasks FilterMode.all SortMode.newest [wCompleted, wPending]) ↔
      ("a" ∈ taskIds (filteredTasks FilterMode.completed SortMode.newest [wCompleted, wPending]) ∨
       "a" ∈ taskIds (filteredTasks FilterMode.pending SortMode.newest [wCompleted, wPending])) :=
  (filteredTasks_partition SortMode.newest [wCompleted, wPending] (by decide)).2 "a"

/-- The page state the component starts in: no tasks loaded yet, wizard on
step 1, empty form. -/
def initialState : PageState := ⟨[], 1, emptyForm⟩

/-- Claim C4: submitting the form with an empty or whitespace-only title makes
`addTask` abort silently: no create request is issued, and the state — task
list, form values and wizard step — is returned exactly as it was. -/
theorem addTask_blank_title (uid : Option String) (resp : ServiceResult Task)
    (st : PageState) (d : FormData) (h : jsTrim d.title = "") :
    addTask uid resp st d = (st, none) := by
  unfold addTask
  rw [if_pos h]

/-- A submitted form whose title is whitespace only. -/
def blankForm : FormData := ⟨"   ", none, none, none, none, none, none⟩

/-- Claim C4, witness: a whitespace-only title aborts a concrete submission
with no request and no state change. -/
theorem addTask_blank_title_witness :
    addTask (some "user-1") (ServiceResult.err "network down") initialState blankForm
      = (initialState, none) :=
  addTask_blank_title (some "user-1") (ServiceResult.err "network down") initialState
    blankForm (by decide)

/-- Claim C5: on a remote-call failure each operation leaves the local state
unchanged: `addTask` keeps the task list, the form values and the wizard step
(its first component is the input state under any guard outcome),
`deleteTask` and `toggleTask` return the input state.  In the embedding every
branch returns normally, so the logged error is never thrown past the
operation. -/
theorem remote_failure_leaves_state (uid : Option String) (st : PageState)
    (d : FormData) (t : Task) (i m1 m2 : String) :
    (addTask uid (ServiceResult.err m1) st d).1 = st ∧
    deleteTask (ServiceResult.err m2) st i = st ∧
    (∀ service : String → Bool → ServiceResult Task, ∀ m3 : String,
      service t.id (!t.completed) = ServiceResult.err m3 → toggleTask service st t = st) := by
  refine ⟨?_, rfl, ?_⟩
  · unfold addTask
    split_ifs
    · rfl
    · cases uid <;> rfl
  · intro service m3 hs
    unfold toggleTask
    rw [hs]

/-- Claim C6: when the local list has pairwise-distinct identifiers and
splits as `l1 ++ t :: l2` around the task with the deleted identifier, a
successful `deleteTask` leaves exactly `l1 ++ l2`: the one matching entry is
gone and every other task keeps its place. -/
theorem deleteTask_removes_exactly_one (st : PageState) (t : Task) (i : String)
    (l1 l2 : List Task) (hsplit : st.tasks = l1 ++ t :: l2) (hid : t.id = i)
    (hd : st.tasks.Pairwise (fun a b => a.id ≠ b.id)) :
    (deleteTask (ServiceResult.ok ()) st i).tasks = l1 ++ l2 := by
  have hfil : (deleteTask (ServiceResult.ok ()) st i).tasks
      = st.tasks.filter (fun u => u.id != i) := rfl
  rw [hfil, hsplit]
  rw [hsplit, List.pairwise_append] at hd
  obtain ⟨_, hd2, hcross⟩ := hd
  obtain ⟨hdt, _⟩ := List.pairwise_cons.mp hd2
  rw [List.filter_append]
  have h1 : l1.filter (fun u => u.id != i) = l1 := by
    rw [List.filter_eq_self]
    intro a ha
    have hne : a.id ≠ t.id := hcross a ha t (List.mem_cons_self t l2)
    rw [hid] at hne
    exact bne_iff_ne.mpr hne
  have h2 : (t :: l2).filter (fun u => u.id != i) = l2 := by
    have hti : (t.id != i) = false := by
      rw [hid]
      simp
    rw [List.filter_cons, hti]
    simp only [Bool.false_eq_true, if_false]
    rw [List.filter_eq_self]
    intro a ha
    have hne : a.id ≠ i := by
      rw [← hid]
      exact Ne.symm (hdt a ha)
    exact bne_iff_ne.mpr hne
  rw [h1, h2]

/-- A pending task with identifier "a", used in concrete witnesses. -/
def wTaskA : Task := ⟨"a", "Write report", some "2024-03-01", none, some "Low", false, some "2024-01-01"⟩

/-- A pending task with identifier "b", used in concrete witnesses. -/
def wTaskB : Task := ⟨"b", "Buy milk", none, none, some "Medium", false, some "2024-01-02"⟩

/-- A completed task with identifier "c", used in concrete witnesses. -/
def wTaskC : Task := ⟨"c", "Call bank", none, some "ask about fees", some "High", true, none⟩

/-- Claim C6, witness: deleting "b" from a concrete three-task list removes
exactly the middle entry. -/
theorem deleteTask_removes_exactly_one_witness :
    (deleteTask (ServiceResult.ok ()) ⟨[wTaskA, wTaskB, wTaskC], 1, emptyForm⟩ "b").tasks
      = [wTaskA] ++ [wTaskC] :=
  deleteTask_removes_exactly_one ⟨[wTaskA, wTaskB, wTaskC], 1, emptyForm⟩ wTaskB "b"
    [wTaskA] [wTaskC] rfl rfl (by decide)

theorem toggleTask_ok (service : String → Bool → ServiceResult Task) (st : PageState)
    (task row : Task) (h : service task.id (!task.completed) = ServiceResult.ok row) :
    toggleTask service st task
      = { st with tasks := st.tasks.map (fun u => if u.id = row.id then row else u) } := by
  unfold toggleTask
  rw [h]

/-- Claim C7: under a service that faithfully applies the requested
`completed := !completed` and returns the updated row, toggling a task that
occurs in a list of pairwise-distinct identifiers and then toggling the
updated task again restores the state exactly; the twice-updated row equals
the original task — same identifier, same attributes, original flag. -/
theorem toggleTask_twice_restores (st : PageState) (t : Task)
    (service : String → Bool → ServiceResult Task)
    (hfaithful : ∀ b : Bool, service t.id b = ServiceResult.ok { t with completed := b })
    (hmem : t ∈ st.tasks) (hd : st.tasks.Pairwise (fun a b => a.id ≠ b.id)) :
    toggleTask service (toggleTask service st t) { t with completed := !t.completed } = st ∧
    ({ t with completed := !(!t.completed) } : Task) = t := by
  have heta : ({ t with completed := !(!t.completed) } : Task) = t := by
    rw [Bool.not_not]
  refine ⟨?_, heta⟩
  have step1 : toggleTask service st t = { st with tasks := st.tasks.map (fun u =>
      if u.id = t.id then { t with completed := !t.completed } else u) } :=
    toggleTask_ok service st t { t with completed := !t.completed } (hfaithful (!t.completed))
  have hsvc2 : service ({ t with completed := !t.completed } : Task).id
      (!({ t with completed := !t.completed } : Task).completed) = ServiceResult.ok t := by
    have h2 : service ({ t with completed := !t.completed } : Task).id
        (!({ t with completed := !t.completed } : Task).completed)
        = ServiceResult.ok { t with completed := !(!t.completed) } :=
      hfaithful (!(!t.completed))
    rw [heta] at h2
    exact h2
  have step2 : toggleTask service
      { st with tasks := st.tasks.map (fun u =>
          if u.id = t.id then { t with completed := !t.completed } else u) }
      { t with completed := !t.completed }
      = { st with tasks := ((st.tasks.map (fun u =>
          if u.id = t.id then { t with completed := !t.completed } else u)).map
            (fun u => if u.id = t.id then t else u)) } :=
    toggleTask_ok service
      { st with tasks := st.tasks.map (fun u =>
          if u.id = t.id then { t with completed := !t.completed } else u) }
      { t with completed := !t.completed } t hsvc2
  rw [step1, step2]
  have hcomp : (st.tasks.map (fun u =>
      if u.id = t.id then { t with completed := !t.completed } else u)).map
        (fun u => if u.id = t.id then t else u) = st.tasks := by
    rw [List.map_map]
    have hpt : ∀ u ∈ st.tasks,
        ((fun u => if u.id = t.id then t else u) ∘
          (fun u => if u.id = t.id then { t with completed := !t.completed } else u)) u
          = id u := by
      intro u hu
      by_cases hui : u.id = t.id
      · have hut : u = t := by
          by_contra hne
          exact (List.Pairwise.forall (fun _ _ hxy => Ne.symm hxy) hd hu hmem hne) hui
        rw [Function.comp_apply, hut, if_pos rfl, if_pos rfl]
        rfl
      · rw [Function.comp_apply, if_neg hui, if_neg hui]
        rfl
    rw [List.map_congr_left hpt, List.map_id]
  rw [hcomp]

/-- A service that faithfully applies the requested completion flag to the
stored row "a" (`wTaskA`) and returns the updated row. -/
def wFaithfulService : String → Bool → ServiceResult Task :=
  fun _ b => ServiceResult.ok { wTaskA with completed := b }

/-- Claim C7, witness: toggling `wTaskA` twice through the faithful service
restores a concrete two-task state. -/
theorem toggleTask_twice_restores_witness :
    toggleTask wFaithfulService
        (toggleTask wFaithfulService ⟨[wTaskA, wTaskB], 1, emptyForm⟩ wTaskA)
        { wTaskA with completed := !wTaskA.completed } = ⟨[wTaskA, wTaskB], 1, emptyForm⟩ ∧
    ({ wTaskA with completed := !(!wTaskA.completed) } : Task) = wTaskA :=
  toggleTask_twice_restores ⟨[wTaskA, wTaskB], 1, emptyForm⟩ wTaskA wFaithfulService
    (fun b => rfl) (List.mem_cons_self wTaskA [wTaskB]) (by decide)

/-- Claim C8: every form submission that reaches the create request issues a
payload holding exactly the user reference, the title, the due date and note
(each collapsed to null when absent or empty) and the priority (Medium when
absent) — the `InsertPayload` record has no other field — and the tags,
subtasks and recurrence-interval form fields never influence any part of the
call: changing them changes neither the request nor the resulting state. -/
theorem addTask_payload_fields (u : String) (resp : ServiceResult Task)
    (st : PageState) (d : FormData) (h : ¬ jsTrim d.title = "") :
    (addTask (some u) resp st d).2 = some (mkInsertPayload u d) ∧
    mkInsertPayload u d = { user_id := u
                            title := d.title
                            due_date := orNull d.due_date
                            note := orNull d.note
                            priority := orMedium d.priority } ∧
    (∀ tg sb rc : Option String,
      addTask (some u) resp st { d with tags := tg, subtasks := sb, recurring_interval := rc }
        = addTask (some u) resp st d) := by
  refine ⟨?_, rfl, ?_⟩
  · unfold addTask
    rw [if_neg h]
    cases resp <;> rfl
  · intro tg sb rc
    rfl

/-- A submitted form with an untrimmed title, an empty due date and every
optional step-3 field filled in. -/
def filledForm : FormData :=
  ⟨" hi ", some "", some "a note", none, some "x,y", some "s1,s2", some "daily"⟩

/-- Claim C8, witness: the payload shape at a concrete submission whose title
is " hi ", whose due date is the empty string and whose step-3 fields are all
set. -/
theorem addTask_payload_fields_witness :
    (addTask (some "user-1") (ServiceResult.err "down") initialState filledForm).2
      = some (mkInsertPayload "user-1" filledForm) ∧
    mkInsertPayload "user-1" filledForm = { user_id := "user-1"
                                            title := filledForm.title
                                            due_date := orNull filledForm.due_date
                                            note := orNull filledForm.note
                                            priority := orMedium filledForm.priority } ∧
    (∀ tg sb rc : Option String,
      addTask (some "user-1") (ServiceResult.err "down") initialState
        { filledForm with tags := tg, subtasks := sb, recurring_interval := rc }
        = addTask (some "user-1") (ServiceResult.err "down") initialState filledForm) :=
  addTask_payload_fields "user-1" (ServiceResult.err "down") initialState filledForm (by decide)

theorem navigate_back (s : PageState) :
    navigate s NavEvent.back = (if 1 < s.step then { s with step := s.step - 1 } else s) := rfl

theorem navigate_next (s : PageState) :
    navigate s NavEvent.next = (if s.step < 3 then { s with step := s.step + 1 } else s) := rfl

theorem navigate_bounds (st : PageState) (e : NavEvent) (h1 : 1 ≤ st.step)
    (h3 : st.step ≤ 3) :
    1 ≤ (navigate st e).step ∧ (navigate st e).step ≤ 3 ∧
    (navigate st e).formValues = st.formValues ∧ (navigate st e).tasks = st.tasks := by
  cases e with
  | back =>
    rw [navigate_back]
    by_cases hc : 1 < st.step
    · rw [if_pos hc]
      refine ⟨?_, ?_, rfl, rfl⟩
      · show 1 ≤ st.step - 1
        omega
      · show st.step - 1 ≤ 3
        omega
    · rw [if_neg hc]
      exact ⟨h1, h3, rfl, rfl⟩
  | next =>
    rw [navigate_next]
    by_cases hc : st.step < 3
    · rw [if_pos hc]
      refine ⟨?_, ?_, rfl, rfl⟩
      · show 1 ≤ st.step + 1
        omega
      · show st.step + 1 ≤ 3
        omega
    · rw [if_neg hc]
      exact ⟨h1, h3, rfl, rfl⟩

theorem runNav_bounds (evs : List NavEvent) (st : PageState) (h1 : 1 ≤ st.step)
    (h3 : st.step ≤ 3) :
    1 ≤ (runNav st evs).step ∧ (runNav st evs).step ≤ 3 ∧
    (runNav st evs).formValues = st.formValues ∧ (runNav st evs).tasks = st.tasks := by
  induction evs generalizing st with
  | nil => exact ⟨h1, h3, rfl, rfl⟩
  | cons e evs ih =>
    have hstep : runNav st (e :: evs) = runNav (navigate st e) evs := rfl
    rw [hstep]
    obtain ⟨n1, n3, nf, nt⟩ := navigate_bounds st e h1 h3
    obtain ⟨a, b, c, d⟩ := ih (navigate st e) n1 n3
    exact ⟨a, b, c.trans nf, d.trans nt⟩

/-- Claim C9: starting from wizard step 1, every sequence of Back/Next clicks
keeps the step within 1..3 and changes neither the form values nor the task
list; moreover at any state a Back click decrements the step exactly when the
step exceeds 1 (the button is not rendered otherwise), a Next click
increments it exactly when the step is below 3, and neither click touches the
form values or the tasks. -/
theorem wizard_step_invariant (evs : List NavEvent) (st : PageState) (h : st.step = 1) :
    (1 ≤ (runNav st evs).step ∧ (runNav st evs).step ≤ 3) ∧
    (runNav st evs).formValues = st.formValues ∧
    (runNav st evs).tasks = st.tasks ∧
    (∀ s : PageState,
      (navigate s NavEvent.back).step = (if 1 < s.step then s.step - 1 else s.step) ∧
      (navigate s NavEvent.next).step = (if s.step < 3 then s.step + 1 else s.step) ∧
      (∀ e : NavEvent, (navigate s e).formValues = s.formValues ∧
        (navigate s e).tasks = s.tasks)) := by
  obtain ⟨a, b, c, d⟩ := runNav_bounds evs st (by omega) (by omega)
  refine ⟨⟨a, b⟩, c, d, ?_⟩
  intro s
  refine ⟨?_, ?_, ?_⟩
  · rw [navigate_back]
    split_ifs <;> rfl
  · rw [navigate_next]
    split_ifs <;> rfl
  · intro e
    cases e with
    | back =>
      rw [navigate_back]
      split_ifs <;> exact ⟨rfl, rfl⟩
    | next =>
      rw [navigate_next]
      split_ifs <;> exact ⟨rfl, rfl⟩

/-- Claim C9, witness: a concrete click sequence from the initial state. -/
theorem wizard_step_invariant_witness :
    1 ≤ (runNav initialState [NavEvent.next, NavEvent.back, NavEvent.next, NavEvent.next,
      NavEvent.next]).step ∧
    (runNav initialState [NavEvent.next, NavEvent.back, NavEvent.next, NavEvent.next,
      NavEvent.next]).step ≤ 3 :=
  (wizard_step_invariant [NavEvent.next, NavEvent.back, NavEvent.next, NavEvent.next,
    NavEvent.next] initialState rfl).1

/-- Claim C10: a submission whose title has non-whitespace content is sent
with the title exactly as typed: the guard trims only for the emptiness
check, while the payload carries the untrimmed string. -/
theorem addTask_title_untrimmed (u : String) (resp : ServiceResult Task)
    (st : PageState) (d : FormData) (h : ¬ jsTrim d.title = "") :
    ∃ p : InsertPayload, (addTask (some u) resp st d).2 = some p ∧ p.title = d.title := by
  refine ⟨mkInsertPayload u d, ?_, rfl⟩
  unfold addTask
  rw [if_neg h]
  cases resp <;> rfl

/-- Claim C10, witness: the title " hi " — non-blank but surrounded by
whitespace — is sent verbatim. -/
theorem addTask_title_untrimmed_witness :
    ∃ p : InsertPayload,
      (addTask (some "user-1") (ServiceResult.ok wTaskA) initialState filledForm).2 = some p ∧
      p.title = " hi " :=
  addTask_title_untrimmed "user-1" (ServiceResult.ok wTaskA) initialState filledForm (by decide)

end TaskManager
